import Mathlib

/-!
# crypta2: a verification development of `cmd/crypta2/main.go`

The program is a command line front end for three primitives of
`golang.org/x/crypto/nacl/box` (key generation, anonymous seal, anonymous open).
Its three commands (`genkey`, `encrypt`, `decrypt`) are embedded below as pure
functions from an explicit world (files, standard input, random source) to an
explicit result (error, standard output, files, random source).

What the embedding fixes about the things outside `main.go`:

* `box.GenerateKey`, `box.SealAnonymous` and `box.OpenAnonymous` are the fields of
  a structure `Box`; every theorem holds for every such structure, under the
  assumptions on it that the theorem names.
* `base64.StdEncoding` is modelled concretely (`EncodeToString`, `DecodeString`),
  the decoder with the behaviour of the Go library: carriage returns and line
  feeds are skipped, padding is mandatory, anything after the padding is an error.
* The file system is a finite-map-like function from path to file.  `os.Stat`
  and `ioutil.ReadFile` succeed exactly on the paths that hold a file;
  `ioutil.WriteFile` fails exactly on the paths the world marks as `denied`, and
  then changes nothing.  The mode of a file is the permission argument that was
  passed when the file was created (the process umask is not modelled).
* An error built by `fmt.Errorf` is kept as its format string and its operands.
-/

namespace Crypta2

/-! ## Bytes and `encoding/base64` (StdEncoding) -/

/-- A Go `byte`. -/
abbrev Byte := Fin 256

/-- The bytes of an ASCII string literal. -/
def ascii (s : String) : List Byte := s.toList.map (fun c => Fin.ofNat c.toNat)

/-- The alphabet of `base64.StdEncoding`. -/
def encodeStd : List Byte :=
  ascii "ABCDEFGHIJKLMNOPQRSTUVWXYZabcdefghijklmnopqrstuvwxyz0123456789+/"

/-- The padding character of `base64.StdEncoding`, `=`. -/
def padChar : Byte := 61

/-- Table lookup `enc.encode[i]`. -/
def encodeChar (i : Nat) : Byte := encodeStd.getD i 0

/-- Table lookup `enc.decodeMap[c]`: the index of `c` in the alphabet, `none` where the
Go table holds `0xff`. -/
def decodeMap (c : Byte) : Option Nat :=
  let i := encodeStd.indexOf c
  if i < 64 then some i else none

/-- Models `base64.StdEncoding.EncodeToString`: three bytes become four characters
(`val>>18&0x3F`, `val>>12&0x3F`, `val>>6&0x3F`, `val&0x3F` of the 24-bit value), a
remainder of one or two bytes is padded with `=`. -/
def EncodeToString : List Byte → List Byte
  | [] => []
  | [a] =>
    let val := a.val * 65536
    [encodeChar (val / 262144 % 64), encodeChar (val / 4096 % 64), padChar, padChar]
  | [a, b] =>
    let val := a.val * 65536 + b.val * 256
    [encodeChar (val / 262144 % 64), encodeChar (val / 4096 % 64),
      encodeChar (val / 64 % 64), padChar]
  | a :: b :: c :: rest =>
    let val := a.val * 65536 + b.val * 256 + c.val
    encodeChar (val / 262144 % 64) :: encodeChar (val / 4096 % 64) ::
      encodeChar (val / 64 % 64) :: encodeChar (val % 64) :: EncodeToString rest

/-- The end of `decodeQuantum`: the `dlen` six-bit values read so far are packed into one
24-bit value (`dbuf[0]<<18 | dbuf[1]<<12 | dbuf[2]<<6 | dbuf[3]`) and its first `dlen - 1`
bytes are the output. -/
def assemble (dbuf : List Nat) : List Byte :=
  let val := dbuf.getD 0 0 * 262144 + dbuf.getD 1 0 * 4096 + dbuf.getD 2 0 * 64 + dbuf.getD 3 0
  ([Fin.ofNat (val / 65536), Fin.ofNat (val / 256), Fin.ofNat val] : List Byte).take
    (dbuf.length - 1)

/-- The loop `for si < len(src) && (src[si] == '\n' || src[si] == '\r') { si++ }`. -/
def skipNewlines : List Byte → List Byte
  | [] => []
  | c :: rest => if c = 10 ∨ c = 13 then skipNewlines rest else c :: rest

/-- The decoding loop of `base64.StdEncoding`, one input byte at a time; `dbuf` holds the
six-bit values of the quantum being read.  `none` stands for `CorruptInputError`. -/
def decodeFrom : List Nat → List Byte → Option (List Byte)
  | dbuf, [] => if dbuf.length = 0 then some [] else none
  | dbuf, c :: rest =>
    match decodeMap c with
    | some out =>
      if dbuf.length = 3 then
        (decodeFrom [] rest).map (fun tail => assemble (dbuf ++ [out]) ++ tail)
      else decodeFrom (dbuf ++ [out]) rest
    | none =>
      if c = 10 ∨ c = 13 then decodeFrom dbuf rest
      else if c ≠ padChar then none
      else
        match dbuf.length with
        | 0 => none
        | 1 => none
        | 2 =>
          match skipNewlines rest with
          | [] => none
          | d :: rest2 =>
            if d ≠ padChar then none
            else if skipNewlines rest2 = [] then some (assemble dbuf) else none
        | _ => if skipNewlines rest = [] then some (assemble dbuf) else none

/-- Models `base64.StdEncoding.DecodeString`; `none` when the library returns an error. -/
def DecodeString (s : List Byte) : Option (List Byte) := decodeFrom [] s

/-! ## Fixed-size keys and the builtin `copy` -/

/-- A Go `[32]byte`. -/
abbrev Key32 := { l : List Byte // l.length = 32 }

/-- The builtin `copy(dst, src)`: the first `min(len(dst), len(src))` elements of `dst`
are overwritten by those of `src`; the result is the new content of `dst`. -/
def copy (dst src : List Byte) : List Byte :=
  src.take (min dst.length src.length) ++ dst.drop (min dst.length src.length)

/-- The two statements `var key32 [32]byte; copy(key32[:], b)`: a zeroed array into which
the decoded key is copied. -/
def copy32 (b : List Byte) : Key32 :=
  ⟨copy (List.replicate 32 0) b, by
    simp only [copy, List.length_append, List.length_take, List.length_drop,
      List.length_replicate]
    omega⟩

/-! ## Errors, files, the world -/

/-- An error value made by `fmt.Errorf(format, args...)`, kept unrendered. -/
structure GoError where
  format : String
  args : List String
deriving DecidableEq, Repr

/-- Builds the error of `fmt.Errorf`. -/
def Errorf (format : String) (args : List String) : GoError := ⟨format, args⟩

/-- A file: its content and its permission bits. -/
structure File where
  data : List Byte
  mode : Nat
deriving DecidableEq, Repr

/-- The file system: what each path holds. -/
abbrev Files := String → Option File

/-- Everything a command reads: the files, the paths that cannot be opened for writing,
standard input (or the error of reading it) and the state of the random source. -/
structure World (Rand : Type) where
  files : Files
  denied : String → Bool
  stdin : Except String (List Byte)
  rand : Rand

/-- Everything a command leaves behind: the error returned by `RunE`, the bytes written to
standard output, the files and the state of the random source. -/
structure Result (Rand : Type) where
  err : Option GoError
  stdout : List Byte
  files : Files
  rand : Rand

/-- The three primitives of `golang.org/x/crypto/nacl/box` used by the program.  Key
generation and sealing draw from the random source and return its new state. -/
structure Box (Rand : Type) where
  GenerateKey : Rand → Except String (Key32 × Key32) × Rand
  SealAnonymous : List Byte → Key32 → Rand → Except String (List Byte) × Rand
  OpenAnonymous : List Byte → Key32 → Key32 → Option (List Byte)

/-- Models `os.Stat(name)`: it succeeds exactly when the path holds a file. -/
def Stat (files : Files) (name : String) : Except String File :=
  match files name with
  | some f => .ok f
  | none => .error ("stat " ++ name ++ ": no such file or directory")

/-- Models `ioutil.ReadFile(name)`: the content of the file the path holds. -/
def ReadFile (files : Files) (name : String) : Except String (List Byte) :=
  match files name with
  | some f => .ok f.data
  | none => .error ("open " ++ name ++ ": no such file or directory")

/-- Models `ioutil.WriteFile(name, data, perm)`: a new file gets the permission `perm`, an
existing one is truncated and keeps its mode. -/
def WriteFile (files : Files) (denied : String → Bool) (name : String) (data : List Byte)
    (perm : Nat) : Except String Files :=
  if denied name then .error ("open " ++ name ++ ": permission denied")
  else
    .ok (fun p =>
      if p = name then
        some ⟨data, match files name with
          | some f => f.mode
          | none => perm⟩
      else files p)

/-- Models `fmt.Println(s)` with a single string operand: the bytes of `s`, then a line feed. -/
def Println (s : List Byte) : List Byte := s ++ [10]

/-! ## The commands of `main.go` -/

/-- Models `readInput(file)`: the named file, or standard input when no name is given. -/
def readInput {Rand : Type} (w : World Rand) (file : String) : Except String (List Byte) :=
  if file.length > 0 then ReadFile w.files file else w.stdin

/-- The `RunE` of `makeGenKeyCmd` (the command `genkey`), with `args[0] = arg0`.  `Quote`
renders the `%q` verb of `fmt.Printf`. -/
def makeGenKeyCmd {Rand : Type} (box : Box Rand) (Quote : String → List Byte) (w : World Rand)
    (arg0 : String) : Result Rand :=
  let fileNamePub := arg0 ++ ".pub"
  let fileNamePvt := arg0 ++ ".pvt"
  match Stat w.files fileNamePvt with
  | .ok _ => ⟨some (Errorf "private key file %q already exists" [fileNamePvt]), [], w.files,
      w.rand⟩
  | .error _ =>
    match Stat w.files fileNamePub with
    | .ok _ => ⟨some (Errorf "public key file %q already exists" [fileNamePub]), [], w.files,
        w.rand⟩
    | .error _ =>
      match box.GenerateKey w.rand with
      | (.error e, rand2) => ⟨some (Errorf "cannot generate key pair: %v" [e]), [], w.files,
          rand2⟩
      | (.ok (pubKey, pvtKey), rand2) =>
        let pubEncoded := EncodeToString pubKey.val
        let pvtEncoded := EncodeToString pvtKey.val
        let out1 := ascii "Writing public key " ++ Quote fileNamePub ++ [10]
        match WriteFile w.files w.denied fileNamePub pubEncoded 0o644 with
        | .error e => ⟨some (Errorf "cannot write public key %q: %v" [fileNamePub, e]), out1,
            w.files, rand2⟩
        | .ok files1 =>
          let out2 := out1 ++ (ascii "Writing private key " ++ Quote fileNamePvt ++ [10])
          match WriteFile files1 w.denied fileNamePvt pvtEncoded 0o600 with
          | .error e => ⟨some (Errorf "cannot write private key %q: %v" [fileNamePvt, e]),
              out2, files1, rand2⟩
          | .ok files2 => ⟨none, out2, files2, rand2⟩

/-- The `RunE` of `makeEncryptCmd` (the command `encrypt`), with the flags `--file=input` and
`--public-key=pubKeyFile`. -/
def makeEncryptCmd {Rand : Type} (box : Box Rand) (w : World Rand) (input pubKeyFile : String) :
    Result Rand :=
  match readInput w input with
  | .error e => ⟨some (Errorf "cannot read input: %v" [e]), [], w.files, w.rand⟩
  | .ok inBytes =>
    match ReadFile w.files pubKeyFile with
    | .error e => ⟨some (Errorf "cannot read public key file %q: %v" [pubKeyFile, e]), [],
        w.files, w.rand⟩
    | .ok pubEnc =>
      match DecodeString pubEnc with
      | none => ⟨some (Errorf "cannot decode public key: %v" ["CorruptInputError"]), [],
          w.files, w.rand⟩
      | some pubBytes =>
        let pubKey32 := copy32 pubBytes
        match box.SealAnonymous inBytes pubKey32 w.rand with
        | (.error _, rand2) =>
          ⟨some (Errorf "cannot encrypt the input with provided public key" []), [], w.files,
            rand2⟩
        | (.ok value, rand2) => ⟨none, Println (EncodeToString value), w.files, rand2⟩

/-- The `RunE` of `makeDecryptCmd` (the command `decrypt`), with the flags `--file=input`,
`--private-key=pvtKeyFile` and `--public-key=pubKeyFile`. -/
def makeDecryptCmd {Rand : Type} (box : Box Rand) (w : World Rand)
    (input pvtKeyFile pubKeyFile : String) : Result Rand :=
  match readInput w input with
  | .error e => ⟨some (Errorf "cannot read input: %v" [e]), [], w.files, w.rand⟩
  | .ok inEncodedBytes =>
    match DecodeString inEncodedBytes with
    | none => ⟨some (Errorf "cannot decode input: %v" ["CorruptInputError"]), [], w.files,
        w.rand⟩
    | some inBytes =>
      match ReadFile w.files pubKeyFile with
      | .error e => ⟨some (Errorf "cannot read public key file %q: %v" [pubKeyFile, e]), [],
          w.files, w.rand⟩
      | .ok pubEnc =>
        match DecodeString pubEnc with
        | none => ⟨some (Errorf "cannot decode public key: %v" ["CorruptInputError"]), [],
            w.files, w.rand⟩
        | some pubBytes =>
          match ReadFile w.files pvtKeyFile with
          | .error e =>
            ⟨some (Errorf "cannot read private key file %q: %v" [pvtKeyFile, e]), [],
              w.files, w.rand⟩
          | .ok pvtEnc =>
            match DecodeString pvtEnc with
            | none => ⟨some (Errorf "cannot decode private key: %v" ["CorruptInputError"]),
                [], w.files, w.rand⟩
            | some pvtBytes =>
              let pubKey32 := copy32 pubBytes
              let pvtKey32 := copy32 pvtBytes
              match box.OpenAnonymous inBytes pubKey32 pvtKey32 with
              | none =>
                ⟨some (Errorf "cannot decrypt the input with provided key pair" []), [],
                  w.files, w.rand⟩
              | some value => ⟨none, Println value, w.files, w.rand⟩

/-- What `main` does with the error of the executed command: the exit code of the process
and the errors printed, one line each, to standard error. -/
structure Exit where
  code : Nat
  stderr : List GoError
deriving DecidableEq, Repr

/-- The end of `main`: `if err := rootCmd.Execute(); err != nil { Fprintln(os.Stderr, err);
os.Exit(1) }`. -/
def main {Rand : Type} (r : Result Rand) : Exit :=
  match r.err with
  | some e => ⟨1, [e]⟩
  | none => ⟨0, []⟩

/-! ## Assumptions on the primitives, and a small instance of them -/

/-- The round-trip property of the primitive: what was sealed for the public half of a
generated key pair is opened by that pair to the plaintext. -/
def Box.RoundTrip {Rand : Type} (box : Box Rand) : Prop :=
  ∀ (r r2 : Rand) (pub pvt : Key32), box.GenerateKey r = (.ok (pub, pvt), r2) →
    ∀ (P c : List Byte) (r3 r4 : Rand), box.SealAnonymous P pub r3 = (.ok c, r4) →
      box.OpenAnonymous c pub pvt = some P

/-- The public half that the demonstration box derives from a private key: every byte
plus one. -/
def demoPublic (pvt : Key32) : Key32 :=
  ⟨pvt.val.map (fun b => b + 1), by rw [List.length_map]; exact pvt.property⟩

/-- A demonstration box over a random source that is a list of bytes: the private key is
the next 32 random bytes, a sealed message is the public key followed by the plaintext, and
opening checks the key pair and the leading public key. -/
def demoBox : Box (List Byte) where
  GenerateKey := fun rand =>
    if rand.length < 32 then (.error "unexpected EOF", rand)
    else (.ok (demoPublic (copy32 rand), copy32 rand), rand.drop 32)
  SealAnonymous := fun P pub rand => (.ok (pub.val ++ P), rand)
  OpenAnonymous := fun c pub pvt =>
    if pub = demoPublic pvt ∧ c.take 32 = pub.val then some (c.drop 32) else none

/-- A rendering of `%q` for the demonstrations: the name between double quotes. -/
def demoQuote (s : String) : List Byte := [34] ++ ascii s ++ [34]

/-- An empty file system. -/
def noFiles : Files := fun _ => none

/-- The world of the demonstrations: no files, nothing denied, the given standard input and
random bytes. -/
def demoWorld (stdin rand : List Byte) : World (List Byte) :=
  ⟨noFiles, fun _ => false, .ok stdin, rand⟩

/-- Thirty-two random bytes `1, 2, ..., 32`. -/
def demoRand : List Byte := (List.range 32).map (fun n => Fin.ofNat (n + 1))

/-- Thirty-two other random bytes `101, 102, ..., 132`. -/
def demoRandB : List Byte := (List.range 32).map (fun n => Fin.ofNat (n + 101))

/-- The text `hello world`. -/
def helloWorld : List Byte := ascii "hello world"

/-- The run `genkey alice` in the empty demonstration world. -/
def demoAlice : Result (List Byte) := makeGenKeyCmd demoBox demoQuote (demoWorld [] demoRand) "alice"

/-- The run `genkey bob` in the empty demonstration world, with other random bytes. -/
def demoBob : Result (List Byte) := makeGenKeyCmd demoBox demoQuote (demoWorld [] demoRandB) "bob"

/-- The world in which `hello world` is sealed: the files left by `genkey alice`, the text
on standard input. -/
def demoEncryptWorld : World (List Byte) :=
  ⟨demoAlice.files, fun _ => false, .ok helloWorld, []⟩

/-- The run `encrypt -p alice.pub` on `hello world`. -/
def demoSealed : Result (List Byte) := makeEncryptCmd demoBox demoEncryptWorld "" "alice.pub"

/-- The world in which alice opens the sealed text: her key files, and on standard input
what `encrypt` printed. -/
def demoDecryptWorld : World (List Byte) :=
  ⟨demoAlice.files, fun _ => false, .ok demoSealed.stdout, []⟩

/-- The world in which bob tries to open the text sealed for alice. -/
def demoWrongKeyWorld : World (List Byte) :=
  ⟨demoBob.files, fun _ => false, .ok demoSealed.stdout, []⟩

/-- Key files of the wrong length: `bad.pub` holds the base64 text of 33 bytes `1`, and
`bad.pvt` holds the empty text, which decodes to no byte at all. -/
def demoBadKeyFiles : Files := fun p =>
  if p = "bad.pub" then some ⟨ascii "AQEBAQEBAQEBAQEBAQEBAQEBAQEBAQEBAQEBAQEBAQEB", 0o644⟩
  else if p = "bad.pvt" then some ⟨[], 0o600⟩
  else none

/-- The world in which `hello world` is sealed with the 33-byte key of `bad.pub`. -/
def demoBadKeyWorld : World (List Byte) :=
  ⟨demoBadKeyFiles, fun _ => false, .ok helloWorld, []⟩

/-- The world in which the text sealed with `bad.pub` is opened with `bad.pub` and
`bad.pvt`. -/
def demoBadKeyOpenWorld : World (List Byte) :=
  ⟨demoBadKeyFiles, fun _ => false,
    .ok (makeEncryptCmd demoBox demoBadKeyWorld "" "bad.pub").stdout, []⟩

/-- A world in which nothing can be read: no files, and standard input fails. -/
def demoUnreadableWorld : World (List Byte) :=
  ⟨noFiles, fun _ => false, .error "read /dev/stdin: input/output error", []⟩

/-- A world in which the key files of alice already exist. -/
def demoExistingWorld : World (List Byte) :=
  ⟨demoAlice.files, fun _ => false, .ok [], demoRandB⟩

/-! ## Lemmas on base64, the key copy and the commands -/

theorem decodeMap_encodeChar_fin : ∀ i : Fin 64, decodeMap (encodeChar i.val) = some i.val := by
  decide

theorem decodeMap_encodeChar (i : Nat) (h : i < 64) : decodeMap (encodeChar i) = some i :=
  decodeMap_encodeChar_fin ⟨i, h⟩

theorem skipNewlines_of_newlines (nl : List Byte) (h : ∀ c ∈ nl, c = 10 ∨ c = 13) :
    skipNewlines nl = [] := by
  induction nl with
  | nil => rfl
  | cons c rest ih =>
    have hc := h c (List.mem_cons_self _ _)
    simp only [skipNewlines, hc, if_true]
    exact ih (fun d hd => h d (List.mem_cons_of_mem _ hd))

theorem decodeMap_newline (c : Byte) (h : c = 10 ∨ c = 13) : decodeMap c = none := by
  rcases h with h | h <;> subst h <;> decide

theorem decodeFrom_newlines (nl : List Byte) (h : ∀ c ∈ nl, c = 10 ∨ c = 13) :
    decodeFrom [] nl = some [] := by
  induction nl with
  | nil => rfl
  | cons c rest ih =>
    have hc := h c (List.mem_cons_self _ _)
    simp only [decodeFrom, decodeMap_newline c hc, hc, if_true]
    exact ih (fun d hd => h d (List.mem_cons_of_mem _ hd))

theorem assemble_three (a b c : Byte) :
    assemble [(a.val * 65536 + b.val * 256 + c.val) / 262144 % 64,
      (a.val * 65536 + b.val * 256 + c.val) / 4096 % 64,
      (a.val * 65536 + b.val * 256 + c.val) / 64 % 64,
      (a.val * 65536 + b.val * 256 + c.val) % 64] = [a, b, c] := by
  have ha := a.isLt
  have hb := b.isLt
  have hc := c.isLt
  simp only [assemble, List.getD_cons_zero, List.getD_cons_succ, List.length_cons,
    List.length_nil, Nat.reduceAdd, Nat.add_one_sub_one, List.take_succ_cons, List.take_zero]
  refine congrArg₂ _ ?_ (congrArg₂ _ ?_ (congrArg₂ _ ?_ rfl)) <;>
    (apply Fin.ext; simp only [Fin.ofNat, Fin.val_mk]; omega)


theorem assemble_two (a b : Byte) :
    assemble [(a.val * 65536 + b.val * 256) / 262144 % 64,
      (a.val * 65536 + b.val * 256) / 4096 % 64,
      (a.val * 65536 + b.val * 256) / 64 % 64] = [a, b] := by
  have ha := a.isLt
  have hb := b.isLt
  simp only [assemble, List.getD_cons_zero, List.getD_cons_succ, List.length_cons,
    List.length_nil, Nat.reduceAdd, Nat.add_one_sub_one, List.take_succ_cons, List.take_zero,
    List.getD_nil]
  refine congrArg₂ _ ?_ (congrArg₂ _ ?_ rfl) <;>
    (apply Fin.ext; simp only [Fin.ofNat, Fin.val_mk]; omega)

theorem assemble_one (a : Byte) :
    assemble [(a.val * 65536) / 262144 % 64, (a.val * 65536) / 4096 % 64] = [a] := by
  have ha := a.isLt
  simp only [assemble, List.getD_cons_zero, List.getD_cons_succ, List.length_cons,
    List.length_nil, Nat.reduceAdd, Nat.add_one_sub_one, List.take_succ_cons, List.take_zero,
    List.getD_nil]
  refine congrArg₂ _ ?_ rfl
  apply Fin.ext; simp only [Fin.ofNat, Fin.val_mk]; omega

theorem decodeFrom_encodeChar (dbuf : List Nat) (i : Nat) (rest : List Byte) (h : i < 64) :
    decodeFrom dbuf (encodeChar i :: rest) =
      if dbuf.length = 3 then
        (decodeFrom [] rest).map (fun tail => assemble (dbuf ++ [i]) ++ tail)
      else decodeFrom (dbuf ++ [i]) rest := by
  simp only [decodeFrom, decodeMap_encodeChar i h]

theorem decodeMap_padChar : decodeMap padChar = none := by decide

theorem padChar_not_newline : ¬ (padChar = 10 ∨ padChar = 13) := by decide

theorem DecodeString_EncodeToString_append (bs nl : List Byte) (h : ∀ c ∈ nl, c = 10 ∨ c = 13) :
    DecodeString (EncodeToString bs ++ nl) = some bs := by
  unfold DecodeString
  induction bs using EncodeToString.induct with
  | case1 => simpa [EncodeToString] using decodeFrom_newlines nl h
  | case2 a =>
    have h1 : a.val * 65536 / 262144 % 64 < 64 := Nat.mod_lt _ (by decide)
    have h2 : a.val * 65536 / 4096 % 64 < 64 := Nat.mod_lt _ (by decide)
    simp only [EncodeToString, List.cons_append, List.nil_append, decodeFrom_encodeChar _ _ _ h1,
      decodeFrom_encodeChar _ _ _ h2]
    simp [decodeFrom, decodeMap_padChar, padChar_not_newline, skipNewlines,
      skipNewlines_of_newlines nl h, assemble_one]
  | case3 a b =>
    have h1 : (a.val * 65536 + b.val * 256) / 262144 % 64 < 64 := Nat.mod_lt _ (by decide)
    have h2 : (a.val * 65536 + b.val * 256) / 4096 % 64 < 64 := Nat.mod_lt _ (by decide)
    have h3 : (a.val * 65536 + b.val * 256) / 64 % 64 < 64 := Nat.mod_lt _ (by decide)
    simp only [EncodeToString, List.cons_append, List.nil_append, decodeFrom_encodeChar _ _ _ h1,
      decodeFrom_encodeChar _ _ _ h2, decodeFrom_encodeChar _ _ _ h3]
    simp [decodeFrom, decodeMap_padChar, padChar_not_newline, skipNewlines_of_newlines nl h,
      assemble_two]
  | case4 a b c rest ih =>
    have h1 : (a.val * 65536 + b.val * 256 + c.val) / 262144 % 64 < 64 :=
      Nat.mod_lt _ (by decide)
    have h2 : (a.val * 65536 + b.val * 256 + c.val) / 4096 % 64 < 64 := Nat.mod_lt _ (by decide)
    have h3 : (a.val * 65536 + b.val * 256 + c.val) / 64 % 64 < 64 := Nat.mod_lt _ (by decide)
    have h4 : (a.val * 65536 + b.val * 256 + c.val) % 64 < 64 := Nat.mod_lt _ (by decide)
    simp only [EncodeToString, List.cons_append, decodeFrom_encodeChar _ _ _ h1,
      decodeFrom_encodeChar _ _ _ h2, decodeFrom_encodeChar _ _ _ h3,
      decodeFrom_encodeChar _ _ _ h4]
    simp [ih, assemble_three]


theorem DecodeString_EncodeToString (bs : List Byte) :
    DecodeString (EncodeToString bs) = some bs := by
  have h := DecodeString_EncodeToString_append bs [] (by simp)
  simpa using h

theorem DecodeString_Println_EncodeToString (bs : List Byte) :
    DecodeString (Println (EncodeToString bs)) = some bs :=
  DecodeString_EncodeToString_append bs [10] (by simp)

theorem copy_of_length_eq (dst src : List Byte) (h : src.length = dst.length) :
    copy dst src = src := by
  simp [copy, h]

theorem copy32_val (k : Key32) : copy32 k.val = k := by
  apply Subtype.ext
  simp only [copy32]
  exact copy_of_length_eq _ _ (by rw [k.property, List.length_replicate])

theorem pub_ne_pvt (name : String) : name ++ ".pub" ≠ name ++ ".pvt" := by
  intro h
  have h2 := congrArg String.data h
  simp only [String.data_append, List.append_cancel_left_eq] at h2
  exact absurd h2 (by decide)

theorem genkey_ok {Rand : Type} (box : Box Rand) (Quote : String → List Byte) (w : World Rand)
    (name : String) (h : (makeGenKeyCmd box Quote w name).err = none) :
    ∃ pub pvt, w.files (name ++ ".pvt") = none ∧ w.files (name ++ ".pub") = none ∧
      (box.GenerateKey w.rand).1 = .ok (pub, pvt) ∧
      (makeGenKeyCmd box Quote w name).rand = (box.GenerateKey w.rand).2 ∧
      (makeGenKeyCmd box Quote w name).files = (fun p =>
        if p = name ++ ".pvt" then some ⟨EncodeToString pvt.val, 0o600⟩
        else if p = name ++ ".pub" then some ⟨EncodeToString pub.val, 0o644⟩
        else w.files p) := by
  unfold makeGenKeyCmd at h ⊢
  simp only [Stat] at h ⊢
  cases hpvt : w.files (name ++ ".pvt") with
  | some f => simp [hpvt] at h
  | none =>
    cases hpub : w.files (name ++ ".pub") with
    | some f => simp [hpvt, hpub] at h
    | none =>
      rcases hg : box.GenerateKey w.rand with ⟨res, r2⟩
      cases res with
      | error e => simp [hpvt, hpub, hg] at h
      | ok kp =>
        obtain ⟨pub, pvt⟩ := kp
        refine ⟨pub, pvt, rfl, rfl, rfl, ?_⟩
        simp only [hpvt, hpub, hg, WriteFile] at h ⊢
        by_cases hd1 : w.denied (name ++ ".pub") = true
        · simp [hd1] at h
        · by_cases hd2 : w.denied (name ++ ".pvt") = true
          · simp [hd1, hd2] at h
          · simp only [hd1, hd2, Bool.false_eq_true, if_false, true_and]
            funext p
            by_cases hp : p = name ++ ".pvt"
            · simp [hp, (pub_ne_pvt name).symm, hpvt]
            · simp [hp, hpub]


theorem encrypt_ok {Rand : Type} (box : Box Rand) (w : World Rand) (input pubKeyFile : String)
    (h : (makeEncryptCmd box w input pubKeyFile).err = none) :
    ∃ inBytes pubEnc pubBytes value, readInput w input = .ok inBytes ∧
      ReadFile w.files pubKeyFile = .ok pubEnc ∧ DecodeString pubEnc = some pubBytes ∧
      (box.SealAnonymous inBytes (copy32 pubBytes) w.rand).1 = .ok value ∧
      (makeEncryptCmd box w input pubKeyFile).stdout = Println (EncodeToString value) := by
  unfold makeEncryptCmd at h ⊢
  cases hin : readInput w input with
  | error e => simp [hin] at h
  | ok inBytes =>
    cases hrd : ReadFile w.files pubKeyFile with
    | error e => simp [hin, hrd] at h
    | ok pubEnc =>
      cases hdec : DecodeString pubEnc with
      | none => simp [hin, hrd, hdec] at h
      | some pubBytes =>
        rcases hseal : box.SealAnonymous inBytes (copy32 pubBytes) w.rand with ⟨res, r2⟩
        cases res with
        | error e => simp [hin, hrd, hdec, hseal] at h
        | ok value =>
          refine ⟨inBytes, pubEnc, pubBytes, value, rfl, rfl, hdec, by rw [hseal], ?_⟩
          simp only [hdec, hseal]

theorem decrypt_eq {Rand : Type} (box : Box Rand) (w : World Rand)
    (input pvtKeyFile pubKeyFile : String) (inEnc inBytes pubEnc pubBytes pvtEnc pvtBytes : List Byte)
    (hin : readInput w input = .ok inEnc) (hdin : DecodeString inEnc = some inBytes)
    (hpub : ReadFile w.files pubKeyFile = .ok pubEnc) (hdpub : DecodeString pubEnc = some pubBytes)
    (hpvt : ReadFile w.files pvtKeyFile = .ok pvtEnc)
    (hdpvt : DecodeString pvtEnc = some pvtBytes) :
    makeDecryptCmd box w input pvtKeyFile pubKeyFile =
      match box.OpenAnonymous inBytes (copy32 pubBytes) (copy32 pvtBytes) with
      | none => ⟨some (Errorf "cannot decrypt the input with provided key pair" []), [],
          w.files, w.rand⟩
      | some value => ⟨none, Println value, w.files, w.rand⟩ := by
  simp only [makeDecryptCmd, hin, hdin, hpub, hdpub, hpvt, hdpvt]

theorem decrypt_after_encrypt {Rand : Type} (box : Box Rand)
    (QuoteA QuoteB : String → List Byte) (wA wB : World Rand) (nameA nameB : String)
    (hgenA : (makeGenKeyCmd box QuoteA wA nameA).err = none)
    (hgenB : (makeGenKeyCmd box QuoteB wB nameB).err = none)
    (P : List Byte) (w1 : World Rand) (input1 : String)
    (hin1 : readInput w1 input1 = .ok P)
    (hpub1 : w1.files (nameA ++ ".pub") = (makeGenKeyCmd box QuoteA wA nameA).files (nameA ++ ".pub"))
    (henc : (makeEncryptCmd box w1 input1 (nameA ++ ".pub")).err = none)
    (w2 : World Rand) (input2 : String)
    (hin2 : readInput w2 input2 = .ok (makeEncryptCmd box w1 input1 (nameA ++ ".pub")).stdout)
    (hpub2 : w2.files (nameB ++ ".pub") = (makeGenKeyCmd box QuoteB wB nameB).files (nameB ++ ".pub"))
    (hpvt2 : w2.files (nameB ++ ".pvt") = (makeGenKeyCmd box QuoteB wB nameB).files (nameB ++ ".pvt")) :
    ∃ pubA pvtA pubB pvtB c,
      (box.GenerateKey wA.rand).1 = .ok (pubA, pvtA) ∧
      (box.GenerateKey wB.rand).1 = .ok (pubB, pvtB) ∧
      (box.SealAnonymous P pubA w1.rand).1 = .ok c ∧
      makeDecryptCmd box w2 input2 (nameB ++ ".pvt") (nameB ++ ".pub") =
        match box.OpenAnonymous c pubB pvtB with
        | none => ⟨some (Errorf "cannot decrypt the input with provided key pair" []), [],
            w2.files, w2.rand⟩
        | some value => ⟨none, Println value, w2.files, w2.rand⟩ := by
  obtain ⟨pubA, pvtA, -, -, hgA, -, hfA⟩ := genkey_ok box QuoteA wA nameA hgenA
  obtain ⟨pubB, pvtB, -, -, hgB, -, hfB⟩ := genkey_ok box QuoteB wB nameB hgenB
  obtain ⟨inBytes, pubEnc, pubBytes, value, hr, hrd, hdec, hseal, hout⟩ :=
    encrypt_ok box w1 input1 (nameA ++ ".pub") henc
  rw [hin1] at hr
  cases hr
  rw [hfA] at hpub1
  simp only [pub_ne_pvt, if_false, if_true] at hpub1
  simp only [ReadFile, hpub1] at hrd
  cases hrd
  rw [DecodeString_EncodeToString] at hdec
  cases hdec
  rw [copy32_val] at hseal
  rw [hfB] at hpub2 hpvt2
  simp only [pub_ne_pvt, if_false, if_true] at hpub2 hpvt2
  refine ⟨pubA, pvtA, pubB, pvtB, value, hgA, hgB, hseal, ?_⟩
  rw [hout] at hin2
  have h := decrypt_eq box w2 input2 (nameB ++ ".pvt") (nameB ++ ".pub") _ value
    (EncodeToString pubB.val) pubB.val (EncodeToString pvtB.val) pvtB.val hin2
    (DecodeString_Println_EncodeToString value) (by simp [ReadFile, hpub2])
    (DecodeString_EncodeToString _) (by simp [ReadFile, hpvt2]) (DecodeString_EncodeToString _)
  rw [copy32_val, copy32_val] at h
  exact h

theorem demoBox_roundTrip : demoBox.RoundTrip := by
  intro r r2 pub pvt hg P c r3 r4 hs
  simp only [demoBox] at hg hs ⊢
  split at hg
  · simp at hg
  · simp only [Prod.mk.injEq, Except.ok.injEq] at hg hs
    obtain ⟨⟨hpub, hpvt⟩, -⟩ := hg
    obtain ⟨hc, -⟩ := hs
    subst hpub hpvt hc
    have hlen : (demoPublic (copy32 r)).val.length = 32 := (demoPublic (copy32 r)).property
    simp [List.take_left' hlen, List.drop_left' hlen]

theorem encodeChar_mem_fin : ∀ i : Fin 64, encodeChar i.val ∈ encodeStd := by
  decide

theorem encodeChar_mem (i : Nat) (h : i < 64) : encodeChar i ∈ encodeStd :=
  encodeChar_mem_fin ⟨i, h⟩

theorem EncodeToString_length (bs : List Byte) :
    (EncodeToString bs).length = (bs.length + 2) / 3 * 4 := by
  induction bs using EncodeToString.induct with
  | case1 => rfl
  | case2 a => simp [EncodeToString]
  | case3 a b => simp [EncodeToString]
  | case4 a b c rest ih =>
    simp only [EncodeToString, List.length_cons, ih]
    omega

theorem EncodeToString_mem (bs : List Byte) :
    ∀ c ∈ EncodeToString bs, c ∈ encodeStd ∨ c = padChar := by
  have hm : ∀ n : Nat, encodeChar (n % 64) ∈ encodeStd :=
    fun n => encodeChar_mem _ (Nat.mod_lt _ (by decide))
  induction bs using EncodeToString.induct with
  | case1 => intro c hc; simp [EncodeToString] at hc
  | case2 a =>
    intro c hc
    simp only [EncodeToString, List.mem_cons, List.mem_singleton, List.not_mem_nil,
      or_false] at hc
    rcases hc with h | h | h | h
    · exact Or.inl (h ▸ hm _)
    · exact Or.inl (h ▸ hm _)
    · exact Or.inr h
    · exact Or.inr h
  | case3 a b =>
    intro c hc
    simp only [EncodeToString, List.mem_cons, List.mem_singleton, List.not_mem_nil,
      or_false] at hc
    rcases hc with h | h | h | h
    · exact Or.inl (h ▸ hm _)
    · exact Or.inl (h ▸ hm _)
    · exact Or.inl (h ▸ hm _)
    · exact Or.inr h
  | case4 a b c rest ih =>
    intro d hd
    simp only [EncodeToString, List.mem_cons] at hd
    rcases hd with h | h | h | h | h
    · exact Or.inl (h ▸ hm _)
    · exact Or.inl (h ▸ hm _)
    · exact Or.inl (h ▸ hm _)
    · exact Or.inl (h ▸ hm _)
    · exact ih d h

theorem newline_not_mem_EncodeToString (bs : List Byte) : (10 : Byte) ∉ EncodeToString bs := by
  intro h
  rcases EncodeToString_mem bs 10 h with h1 | h1
  · exact absurd h1 (by decide)
  · exact absurd h1 (by decide)

theorem copy32_getElem?_lt (b : List Byte) (i : Nat) (h : i < min b.length 32) :
    (copy32 b).val[i]? = b[i]? := by
  simp only [copy32, copy, List.length_replicate]
  rw [List.getElem?_append_left (by simp only [List.length_take]; omega), List.getElem?_take,
    if_pos (by omega)]

theorem copy32_getElem?_ge (b : List Byte) (i : Nat) (h1 : b.length ≤ i) (h2 : i < 32) :
    (copy32 b).val[i]? = some 0 := by
  simp only [copy32, copy, List.length_replicate]
  rw [List.getElem?_append_right (by simp only [List.length_take]; omega), List.getElem?_drop,
    List.getElem?_replicate, if_pos (by simp only [List.length_take]; omega)]

/-! ## The claims -/

/-- C1: round trip through the three commands.  If `genkey` succeeds, `encrypt` is run on
the plaintext `P` with the written `.pub` file, and `decrypt` is run on exactly what
`encrypt` printed (base64 and a line feed) with the written `.pub` and `.pvt` files, then
the open primitive receives the generated key pair and the sealed bytes unchanged, returns
`P`, and `decrypt` succeeds printing `P`.  The only assumption on the primitive is its own
round-trip property. -/
theorem roundtrip_through_commands {Rand : Type} (box : Box Rand) (hbox : box.RoundTrip)
    (Quote : String → List Byte) (w0 : World Rand) (name : String)
    (hgen : (makeGenKeyCmd box Quote w0 name).err = none)
    (P : List Byte) (w1 : World Rand) (input1 : String)
    (hin1 : readInput w1 input1 = .ok P)
    (hpub1 : w1.files (name ++ ".pub") = (makeGenKeyCmd box Quote w0 name).files (name ++ ".pub"))
    (henc : (makeEncryptCmd box w1 input1 (name ++ ".pub")).err = none)
    (w2 : World Rand) (input2 : String)
    (hin2 : readInput w2 input2 = .ok (makeEncryptCmd box w1 input1 (name ++ ".pub")).stdout)
    (hpub2 : w2.files (name ++ ".pub") = (makeGenKeyCmd box Quote w0 name).files (name ++ ".pub"))
    (hpvt2 : w2.files (name ++ ".pvt") = (makeGenKeyCmd box Quote w0 name).files (name ++ ".pvt")) :
    ∃ pub pvt c,
      (box.GenerateKey w0.rand).1 = .ok (pub, pvt) ∧
      (box.SealAnonymous P pub w1.rand).1 = .ok c ∧
      box.OpenAnonymous c pub pvt = some P ∧
      makeDecryptCmd box w2 input2 (name ++ ".pvt") (name ++ ".pub") =
        ⟨none, Println P, w2.files, w2.rand⟩ := by
  obtain ⟨pubA, pvtA, pubB, pvtB, c, hgA, hgB, hseal, hdec⟩ :=
    decrypt_after_encrypt box Quote Quote w0 w0 name name hgen hgen P w1 input1 hin1 hpub1 henc
      w2 input2 hin2 hpub2 hpvt2
  rw [hgA] at hgB
  simp only [Except.ok.injEq, Prod.mk.injEq] at hgB
  obtain ⟨hp1, hp2⟩ := hgB
  subst hp1 hp2
  have hopen : box.OpenAnonymous c pubA pvtA = some P :=
    hbox w0.rand (box.GenerateKey w0.rand).2 pubA pvtA (by rw [← hgA]) P c w1.rand
      (box.SealAnonymous P pubA w1.rand).2 (by rw [← hseal])
  refine ⟨pubA, pvtA, c, hgA, hseal, hopen, ?_⟩
  rw [hdec, hopen]

/-- Witness of C1: the round trip of `hello world` through `genkey alice`, `encrypt` and
`decrypt` with the demonstration box. -/
theorem roundtrip_through_commands_witness :
    demoBox.RoundTrip ∧
    (makeGenKeyCmd demoBox demoQuote (demoWorld [] demoRand) "alice").err = none ∧
    readInput demoEncryptWorld "" = .ok helloWorld ∧
    (makeEncryptCmd demoBox demoEncryptWorld "" ("alice" ++ ".pub")).err = none ∧
    ∃ pub pvt c,
      (demoBox.GenerateKey (demoWorld [] demoRand).rand).1 = .ok (pub, pvt) ∧
      (demoBox.SealAnonymous helloWorld pub demoEncryptWorld.rand).1 = .ok c ∧
      demoBox.OpenAnonymous c pub pvt = some helloWorld ∧
      makeDecryptCmd demoBox demoDecryptWorld "" ("alice" ++ ".pvt") ("alice" ++ ".pub") =
        ⟨none, Println helloWorld, demoDecryptWorld.files, demoDecryptWorld.rand⟩ :=
  ⟨demoBox_roundTrip, by decide, rfl, by decide,
    roundtrip_through_commands demoBox demoBox_roundTrip demoQuote (demoWorld [] demoRand)
      "alice" (by decide) helloWorld demoEncryptWorld "" rfl rfl (by decide)
      demoDecryptWorld "" rfl rfl rfl⟩

/-- C2: non-overwrite.  When `<name>.pub` or `<name>.pvt` already exists, `genkey` returns
an error, prints nothing, leaves every file as it was, leaves the random source untouched,
and its whole result is the same whatever the key generation primitive is (it is not
consulted). -/
theorem genkey_refuses_to_overwrite {Rand : Type} (box : Box Rand)
    (Quote : String → List Byte) (w : World Rand) (name : String)
    (h : (w.files (name ++ ".pub")).isSome ∨ (w.files (name ++ ".pvt")).isSome) :
    (makeGenKeyCmd box Quote w name).err.isSome ∧
    (makeGenKeyCmd box Quote w name).files = w.files ∧
    (makeGenKeyCmd box Quote w name).rand = w.rand ∧
    (makeGenKeyCmd box Quote w name).stdout = [] ∧
    ∀ box2 : Box Rand, makeGenKeyCmd box2 Quote w name = makeGenKeyCmd box Quote w name := by
  unfold makeGenKeyCmd
  simp only [Stat]
  cases hpvt : w.files (name ++ ".pvt") with
  | some f => simp
  | none =>
    cases hpub : w.files (name ++ ".pub") with
    | some f => simp
    | none => simp [hpvt, hpub] at h

/-- Witness of C2: `genkey alice` in a world that already holds the key files of alice. -/
theorem genkey_refuses_to_overwrite_witness :
    ((demoExistingWorld.files ("alice" ++ ".pub")).isSome ∨
      (demoExistingWorld.files ("alice" ++ ".pvt")).isSome) ∧
    (makeGenKeyCmd demoBox demoQuote demoExistingWorld "alice").err.isSome ∧
    (makeGenKeyCmd demoBox demoQuote demoExistingWorld "alice").files = demoExistingWorld.files ∧
    (makeGenKeyCmd demoBox demoQuote demoExistingWorld "alice").rand = demoExistingWorld.rand ∧
    (makeGenKeyCmd demoBox demoQuote demoExistingWorld "alice").stdout = [] ∧
    ∀ box2 : Box (List Byte),
      makeGenKeyCmd box2 demoQuote demoExistingWorld "alice" =
        makeGenKeyCmd demoBox demoQuote demoExistingWorld "alice" :=
  ⟨by decide, genkey_refuses_to_overwrite demoBox demoQuote demoExistingWorld "alice"
    (by decide)⟩

/-- C4: a failure of the open primitive is reported generically.  Whenever the input and
the two key files are read and decoded and the open primitive reports failure, `decrypt`
returns the error with the fixed text `cannot decrypt the input with provided key pair`
(no operand: nothing of the ciphertext, of the keys or of the cause enters it), writes
nothing to standard output, and the process prints that one error and exits with code 1. -/
theorem decrypt_failure_is_generic {Rand : Type} (box : Box Rand) (w : World Rand)
    (input pvtKeyFile pubKeyFile : String)
    (inEnc inBytes pubEnc pubBytes pvtEnc pvtBytes : List Byte)
    (hin : readInput w input = .ok inEnc) (hdin : DecodeString inEnc = some inBytes)
    (hpub : ReadFile w.files pubKeyFile = .ok pubEnc)
    (hdpub : DecodeString pubEnc = some pubBytes)
    (hpvt : ReadFile w.files pvtKeyFile = .ok pvtEnc)
    (hdpvt : DecodeString pvtEnc = some pvtBytes)
    (hopen : box.OpenAnonymous inBytes (copy32 pubBytes) (copy32 pvtBytes) = none) :
    (makeDecryptCmd box w input pvtKeyFile pubKeyFile).err =
      some (Errorf "cannot decrypt the input with provided key pair" []) ∧
    (makeDecryptCmd box w input pvtKeyFile pubKeyFile).stdout = [] ∧
    main (makeDecryptCmd box w input pvtKeyFile pubKeyFile) =
      ⟨1, [Errorf "cannot decrypt the input with provided key pair" []]⟩ := by
  rw [decrypt_eq box w input pvtKeyFile pubKeyFile inEnc inBytes pubEnc pubBytes pvtEnc pvtBytes
    hin hdin hpub hdpub hpvt hdpvt, hopen]
  exact ⟨rfl, rfl, rfl⟩


/-- Witness of C4: bob's key files on what was sealed for alice; the demonstration box
reports failure. -/
theorem decrypt_failure_is_generic_witness :
    readInput demoWrongKeyWorld "" = .ok demoSealed.stdout ∧
    DecodeString demoSealed.stdout = some ((demoPublic (copy32 demoRand)).val ++ helloWorld) ∧
    ReadFile demoWrongKeyWorld.files "bob.pub" =
      .ok (EncodeToString (demoPublic (copy32 demoRandB)).val) ∧
    DecodeString (EncodeToString (demoPublic (copy32 demoRandB)).val) =
      some (demoPublic (copy32 demoRandB)).val ∧
    ReadFile demoWrongKeyWorld.files "bob.pvt" = .ok (EncodeToString (copy32 demoRandB).val) ∧
    DecodeString (EncodeToString (copy32 demoRandB).val) = some (copy32 demoRandB).val ∧
    demoBox.OpenAnonymous ((demoPublic (copy32 demoRand)).val ++ helloWorld)
      (copy32 (demoPublic (copy32 demoRandB)).val) (copy32 (copy32 demoRandB).val) = none ∧
    (makeDecryptCmd demoBox demoWrongKeyWorld "" "bob.pvt" "bob.pub").err =
      some (Errorf "cannot decrypt the input with provided key pair" []) ∧
    (makeDecryptCmd demoBox demoWrongKeyWorld "" "bob.pvt" "bob.pub").stdout = [] ∧
    main (makeDecryptCmd demoBox demoWrongKeyWorld "" "bob.pvt" "bob.pub") =
      ⟨1, [Errorf "cannot decrypt the input with provided key pair" []]⟩ :=
  ⟨rfl, by decide, rfl, by decide, rfl, by decide, by decide,
    decrypt_failure_is_generic demoBox demoWrongKeyWorld "" "bob.pvt" "bob.pub"
      demoSealed.stdout ((demoPublic (copy32 demoRand)).val ++ helloWorld)
      (EncodeToString (demoPublic (copy32 demoRandB)).val) (demoPublic (copy32 demoRandB)).val
      (EncodeToString (copy32 demoRandB).val) (copy32 demoRandB).val
      rfl (by decide) rfl (by decide) rfl (by decide) (by decide)⟩

/-- C5, counterexample: `bad.pub` is valid base64 of 33 bytes and `bad.pvt` is valid base64
of 0 bytes, yet `encrypt` with `bad.pub` returns no error, and `decrypt` of its output with
`bad.pub` and `bad.pvt` returns no error either and prints the text. -/
theorem wrong_length_key_accepted :
    ReadFile demoBadKeyWorld.files "bad.pub" =
      .ok (ascii "AQEBAQEBAQEBAQEBAQEBAQEBAQEBAQEBAQEBAQEBAQEB") ∧
    DecodeString (ascii "AQEBAQEBAQEBAQEBAQEBAQEBAQEBAQEBAQEBAQEBAQEB") =
      some (List.replicate 33 1) ∧
    (List.replicate 33 (1 : Byte)).length ≠ 32 ∧
    ReadFile demoBadKeyWorld.files "bad.pvt" = .ok [] ∧
    DecodeString [] = some [] ∧
    ([] : List Byte).length ≠ 32 ∧
    (makeEncryptCmd demoBox demoBadKeyWorld "" "bad.pub").err = none ∧
    (makeDecryptCmd demoBox demoBadKeyOpenWorld "" "bad.pvt" "bad.pub").err = none ∧
    (makeDecryptCmd demoBox demoBadKeyOpenWorld "" "bad.pvt" "bad.pub").stdout = Println helloWorld :=
  ⟨rfl, by decide, by decide, rfl, by decide, by decide, by decide, by decide, by decide⟩

/-- C5, amended: a key file whose content is valid base64 but does not decode to exactly
32 bytes is not rejected.  `encrypt` succeeds exactly when the seal primitive succeeds on
the key copied into 32 bytes, and `decrypt` succeeds exactly when the open primitive
succeeds on the keys copied into 32 bytes. -/
theorem wrong_length_key_reaches_primitive {Rand : Type} (box : Box Rand) (w : World Rand)
    (input pvtKeyFile pubKeyFile : String) :
    (∀ inBytes pubEnc pubBytes, readInput w input = .ok inBytes →
      ReadFile w.files pubKeyFile = .ok pubEnc → DecodeString pubEnc = some pubBytes →
      pubBytes.length ≠ 32 →
      ((makeEncryptCmd box w input pubKeyFile).err = none ↔
        ∃ value, (box.SealAnonymous inBytes (copy32 pubBytes) w.rand).1 = .ok value)) ∧
    (∀ inEnc inBytes pubEnc pubBytes pvtEnc pvtBytes, readInput w input = .ok inEnc →
      DecodeString inEnc = some inBytes →
      ReadFile w.files pubKeyFile = .ok pubEnc → DecodeString pubEnc = some pubBytes →
      ReadFile w.files pvtKeyFile = .ok pvtEnc → DecodeString pvtEnc = some pvtBytes →
      pubBytes.length ≠ 32 ∨ pvtBytes.length ≠ 32 →
      ((makeDecryptCmd box w input pvtKeyFile pubKeyFile).err = none ↔
        ∃ value, box.OpenAnonymous inBytes (copy32 pubBytes) (copy32 pvtBytes) = some value)) := by
  constructor
  · intro inBytes pubEnc pubBytes hin hrd hdec _
    simp only [makeEncryptCmd, hin, hrd, hdec]
    rcases hseal : box.SealAnonymous inBytes (copy32 pubBytes) w.rand with ⟨res, r2⟩
    cases res <;> simp
  · intro inEnc inBytes pubEnc pubBytes pvtEnc pvtBytes hin hdin hpub hdpub hpvt hdpvt _
    rw [decrypt_eq box w input pvtKeyFile pubKeyFile inEnc inBytes pubEnc pubBytes pvtEnc
      pvtBytes hin hdin hpub hdpub hpvt hdpvt]
    cases box.OpenAnonymous inBytes (copy32 pubBytes) (copy32 pvtBytes) <;> simp

/-- Witness of C5, amended: the 33-byte `bad.pub` and the 0-byte `bad.pvt`. -/
theorem wrong_length_key_reaches_primitive_witness :
    (readInput demoBadKeyWorld "" = .ok helloWorld ∧
      ReadFile demoBadKeyWorld.files "bad.pub" =
        .ok (ascii "AQEBAQEBAQEBAQEBAQEBAQEBAQEBAQEBAQEBAQEBAQEB") ∧
      DecodeString (ascii "AQEBAQEBAQEBAQEBAQEBAQEBAQEBAQEBAQEBAQEBAQEB") =
        some (List.replicate 33 1) ∧
      (List.replicate 33 (1 : Byte)).length ≠ 32 ∧
      ((makeEncryptCmd demoBox demoBadKeyWorld "" "bad.pub").err = none ↔
        ∃ value, (demoBox.SealAnonymous helloWorld (copy32 (List.replicate 33 1))
          demoBadKeyWorld.rand).1 = .ok value)) ∧
    (readInput demoBadKeyOpenWorld "" = .ok (makeEncryptCmd demoBox demoBadKeyWorld "" "bad.pub").stdout ∧
      DecodeString (makeEncryptCmd demoBox demoBadKeyWorld "" "bad.pub").stdout =
        some (List.replicate 32 1 ++ helloWorld) ∧
      ReadFile demoBadKeyOpenWorld.files "bad.pvt" = .ok [] ∧
      DecodeString [] = some [] ∧
      ((List.replicate 33 (1 : Byte)).length ≠ 32 ∨ ([] : List Byte).length ≠ 32) ∧
      ((makeDecryptCmd demoBox demoBadKeyOpenWorld "" "bad.pvt" "bad.pub").err = none ↔
        ∃ value, demoBox.OpenAnonymous (List.replicate 32 1 ++ helloWorld)
          (copy32 (List.replicate 33 1)) (copy32 []) = some value)) :=
  ⟨⟨rfl, rfl, by decide, by decide,
      (wrong_length_key_reaches_primitive demoBox demoBadKeyWorld "" "bad.pvt" "bad.pub").1
        helloWorld (ascii "AQEBAQEBAQEBAQEBAQEBAQEBAQEBAQEBAQEBAQEBAQEB")
        (List.replicate 33 1) rfl rfl (by decide) (by decide)⟩,
    ⟨rfl, by decide, rfl, by decide, by decide,
      (wrong_length_key_reaches_primitive demoBox demoBadKeyOpenWorld "" "bad.pvt" "bad.pub").2
        (makeEncryptCmd demoBox demoBadKeyWorld "" "bad.pub").stdout
        (List.replicate 32 1 ++ helloWorld)
        (ascii "AQEBAQEBAQEBAQEBAQEBAQEBAQEBAQEBAQEBAQEBAQEB") (List.replicate 33 1) [] []
        rfl (by decide) rfl (by decide) rfl (by decide) (by decide)⟩⟩

/-- C6, counterexample: in the end-to-end scenario the open primitive returns the eleven
bytes of `hello world`, and `decrypt` writes twelve bytes: the text and a line feed. -/
theorem decrypt_stdout_not_raw :
    (makeDecryptCmd demoBox demoDecryptWorld "" "alice.pvt" "alice.pub").err = none ∧
    demoBox.OpenAnonymous ((demoPublic (copy32 demoRand)).val ++ helloWorld)
      (demoPublic (copy32 demoRand)) (copy32 demoRand) = some helloWorld ∧
    (makeDecryptCmd demoBox demoDecryptWorld "" "alice.pvt" "alice.pub").stdout =
      helloWorld ++ [10] ∧
    (makeDecryptCmd demoBox demoDecryptWorld "" "alice.pvt" "alice.pub").stdout ≠ helloWorld :=
  ⟨by decide, by decide, by decide, by decide⟩

/-- C6, amended: on every successful `decrypt` the bytes written to standard output are
the plaintext bytes returned by the open primitive followed by one line feed, with nothing
before them; and in the end-to-end scenario (a box with the round-trip property, `genkey
alice`, `hello world` sealed with `alice.pub`, the result opened with `alice.pub` and
`alice.pvt`) the output is `hello world` followed by a line feed. -/
theorem decrypt_stdout_is_plaintext_and_newline {Rand : Type} (box : Box Rand) :
    (∀ (w : World Rand) (input pvtKeyFile pubKeyFile : String),
      (makeDecryptCmd box w input pvtKeyFile pubKeyFile).err = none →
      ∃ inEnc inBytes pubEnc pubBytes pvtEnc pvtBytes value,
        readInput w input = .ok inEnc ∧ DecodeString inEnc = some inBytes ∧
        ReadFile w.files pubKeyFile = .ok pubEnc ∧ DecodeString pubEnc = some pubBytes ∧
        ReadFile w.files pvtKeyFile = .ok pvtEnc ∧ DecodeString pvtEnc = some pvtBytes ∧
        box.OpenAnonymous inBytes (copy32 pubBytes) (copy32 pvtBytes) = some value ∧
        (makeDecryptCmd box w input pvtKeyFile pubKeyFile).stdout = value ++ [10]) ∧
    (box.RoundTrip →
      ∀ (Quote : String → List Byte) (w0 w1 w2 : World Rand) (input1 input2 : String),
      (makeGenKeyCmd box Quote w0 "alice").err = none →
      readInput w1 input1 = .ok helloWorld →
      w1.files "alice.pub" = (makeGenKeyCmd box Quote w0 "alice").files "alice.pub" →
      (makeEncryptCmd box w1 input1 "alice.pub").err = none →
      readInput w2 input2 = .ok (makeEncryptCmd box w1 input1 "alice.pub").stdout →
      w2.files "alice.pub" = (makeGenKeyCmd box Quote w0 "alice").files "alice.pub" →
      w2.files "alice.pvt" = (makeGenKeyCmd box Quote w0 "alice").files "alice.pvt" →
      (makeDecryptCmd box w2 input2 "alice.pvt" "alice.pub").err = none ∧
      (makeDecryptCmd box w2 input2 "alice.pvt" "alice.pub").stdout = helloWorld ++ [10]) := by
  constructor
  · intro w input pvtKeyFile pubKeyFile h
    unfold makeDecryptCmd at h ⊢
    cases hin : readInput w input with
    | error e => simp [hin] at h
    | ok inEnc =>
      cases hdin : DecodeString inEnc with
      | none => simp [hin, hdin] at h
      | some inBytes =>
        cases hpub : ReadFile w.files pubKeyFile with
        | error e => simp [hin, hdin, hpub] at h
        | ok pubEnc =>
          cases hdpub : DecodeString pubEnc with
          | none => simp [hin, hdin, hpub, hdpub] at h
          | some pubBytes =>
            cases hpvt : ReadFile w.files pvtKeyFile with
            | error e => simp [hin, hdin, hpub, hdpub, hpvt] at h
            | ok pvtEnc =>
              cases hdpvt : DecodeString pvtEnc with
              | none => simp [hin, hdin, hpub, hdpub, hpvt, hdpvt] at h
              | some pvtBytes =>
                cases hopen : box.OpenAnonymous inBytes (copy32 pubBytes) (copy32 pvtBytes) with
                | none => simp [hin, hdin, hpub, hdpub, hpvt, hdpvt, hopen] at h
                | some value =>
                  refine ⟨inEnc, inBytes, pubEnc, pubBytes, pvtEnc, pvtBytes, value, rfl, hdin,
                    rfl, hdpub, rfl, hdpvt, hopen, ?_⟩
                  simp only [hdin, hdpub, hdpvt, hopen, Println]
  · intro hbox Quote w0 w1 w2 input1 input2 hgen hin1 hpub1 henc hin2 hpub2 hpvt2
    have e1 : ("alice.pub" : String) = "alice" ++ ".pub" := by decide
    have e2 : ("alice.pvt" : String) = "alice" ++ ".pvt" := by decide
    rw [e1] at hpub1 henc hin2 hpub2
    rw [e2] at hpvt2
    obtain ⟨pubA, pvtA, pubB, pvtB, c, hgA, hgB, hseal, hdec⟩ :=
      decrypt_after_encrypt box Quote Quote w0 w0 "alice" "alice" hgen hgen helloWorld w1 input1
        hin1 hpub1 henc w2 input2 hin2 hpub2 hpvt2
    rw [hgA] at hgB
    simp only [Except.ok.injEq, Prod.mk.injEq] at hgB
    obtain ⟨hp1, hp2⟩ := hgB
    subst hp1 hp2
    have hopen : box.OpenAnonymous c pubA pvtA = some helloWorld :=
      hbox w0.rand (box.GenerateKey w0.rand).2 pubA pvtA (by rw [← hgA]) helloWorld c w1.rand
        (box.SealAnonymous helloWorld pubA w1.rand).2 (by rw [← hseal])
    rw [e1, e2, hdec, hopen]
    exact ⟨rfl, rfl⟩

/-- Witness of C6, amended: the end-to-end scenario with the demonstration box. -/
theorem decrypt_stdout_is_plaintext_and_newline_witness :
    (makeDecryptCmd demoBox demoDecryptWorld "" "alice.pvt" "alice.pub").err = none ∧
    (∃ inEnc inBytes pubEnc pubBytes pvtEnc pvtBytes value,
      readInput demoDecryptWorld "" = .ok inEnc ∧ DecodeString inEnc = some inBytes ∧
      ReadFile demoDecryptWorld.files "alice.pub" = .ok pubEnc ∧
      DecodeString pubEnc = some pubBytes ∧
      ReadFile demoDecryptWorld.files "alice.pvt" = .ok pvtEnc ∧
      DecodeString pvtEnc = some pvtBytes ∧
      demoBox.OpenAnonymous inBytes (copy32 pubBytes) (copy32 pvtBytes) = some value ∧
      (makeDecryptCmd demoBox demoDecryptWorld "" "alice.pvt" "alice.pub").stdout = value ++ [10]) ∧
    demoBox.RoundTrip ∧
    (makeGenKeyCmd demoBox demoQuote (demoWorld [] demoRand) "alice").err = none ∧
    readInput demoEncryptWorld "" = .ok helloWorld ∧
    (makeEncryptCmd demoBox demoEncryptWorld "" "alice.pub").err = none ∧
    (makeDecryptCmd demoBox demoDecryptWorld "" "alice.pvt" "alice.pub").stdout = helloWorld ++ [10] :=
  ⟨by decide,
    (decrypt_stdout_is_plaintext_and_newline demoBox).1 demoDecryptWorld "" "alice.pvt"
      "alice.pub" (by decide),
    demoBox_roundTrip, by decide, rfl, by decide,
    ((decrypt_stdout_is_plaintext_and_newline demoBox).2 demoBox_roundTrip demoQuote
      (demoWorld [] demoRand) demoEncryptWorld demoDecryptWorld "" "" (by decide) rfl rfl
      (by decide) rfl rfl rfl).2⟩


/-- C7: key-pair shape.  After a successful `genkey`, `<name>.pub` and `<name>.pvt` hold the
standard base64 encoding of the public and of the private key returned by key generation:
44 characters, each in the standard alphabet or the padding `=`, no line feed, decoding
without error to exactly those 32 bytes. -/
theorem genkey_key_files_shape {Rand : Type} (box : Box Rand) (Quote : String → List Byte)
    (w : World Rand) (name : String) (h : (makeGenKeyCmd box Quote w name).err = none) :
    ∃ pub pvt fpub fpvt,
      (box.GenerateKey w.rand).1 = .ok (pub, pvt) ∧
      (makeGenKeyCmd box Quote w name).files (name ++ ".pub") = some fpub ∧
      (makeGenKeyCmd box Quote w name).files (name ++ ".pvt") = some fpvt ∧
      fpub.data = EncodeToString pub.val ∧ fpvt.data = EncodeToString pvt.val ∧
      fpub.data.length = 44 ∧ fpvt.data.length = 44 ∧
      (∀ c ∈ fpub.data, c ∈ encodeStd ∨ c = padChar) ∧
      (∀ c ∈ fpvt.data, c ∈ encodeStd ∨ c = padChar) ∧
      (10 : Byte) ∉ fpub.data ∧ (10 : Byte) ∉ fpvt.data ∧
      DecodeString fpub.data = some pub.val ∧ DecodeString fpvt.data = some pvt.val ∧
      pub.val.length = 32 ∧ pvt.val.length = 32 := by
  obtain ⟨pub, pvt, -, -, hg, -, hf⟩ := genkey_ok box Quote w name h
  refine ⟨pub, pvt, ⟨EncodeToString pub.val, 0o644⟩, ⟨EncodeToString pvt.val, 0o600⟩, hg, ?_, ?_,
    rfl, rfl, ?_, ?_, EncodeToString_mem _, EncodeToString_mem _,
    newline_not_mem_EncodeToString _, newline_not_mem_EncodeToString _,
    DecodeString_EncodeToString _, DecodeString_EncodeToString _, pub.property, pvt.property⟩
  · rw [hf]; simp only [pub_ne_pvt, if_false, if_true]
  · rw [hf]; simp only [if_true]
  · simp only [EncodeToString_length, pub.property]
  · simp only [EncodeToString_length, pvt.property]

/-- Witness of C7: `genkey alice` with the demonstration box. -/
theorem genkey_key_files_shape_witness :
    (makeGenKeyCmd demoBox demoQuote (demoWorld [] demoRand) "alice").err = none ∧
    ∃ pub pvt fpub fpvt,
      (demoBox.GenerateKey (demoWorld [] demoRand).rand).1 = .ok (pub, pvt) ∧
      (makeGenKeyCmd demoBox demoQuote (demoWorld [] demoRand) "alice").files ("alice" ++ ".pub") =
        some fpub ∧
      (makeGenKeyCmd demoBox demoQuote (demoWorld [] demoRand) "alice").files ("alice" ++ ".pvt") =
        some fpvt ∧
      fpub.data = EncodeToString pub.val ∧ fpvt.data = EncodeToString pvt.val ∧
      fpub.data.length = 44 ∧ fpvt.data.length = 44 ∧
      (∀ c ∈ fpub.data, c ∈ encodeStd ∨ c = padChar) ∧
      (∀ c ∈ fpvt.data, c ∈ encodeStd ∨ c = padChar) ∧
      (10 : Byte) ∉ fpub.data ∧ (10 : Byte) ∉ fpvt.data ∧
      DecodeString fpub.data = some pub.val ∧ DecodeString fpvt.data = some pvt.val ∧
      pub.val.length = 32 ∧ pvt.val.length = 32 :=
  ⟨by decide,
    genkey_key_files_shape demoBox demoQuote (demoWorld [] demoRand) "alice" (by decide)⟩

/-- C8: key file permissions.  A successful `genkey` started where neither file existed:
`<name>.pvt` is created with mode 0600 (no group or other bit), `<name>.pub` is created with
mode 0644, and every other path holds what it held before. -/
theorem genkey_file_modes {Rand : Type} (box : Box Rand) (Quote : String → List Byte)
    (w : World Rand) (name : String) (h : (makeGenKeyCmd box Quote w name).err = none) :
    w.files (name ++ ".pub") = none ∧ w.files (name ++ ".pvt") = none ∧
    (∃ fpvt, (makeGenKeyCmd box Quote w name).files (name ++ ".pvt") = some fpvt ∧
      fpvt.mode = 0o600 ∧ fpvt.mode &&& 0o077 = 0) ∧
    (∃ fpub, (makeGenKeyCmd box Quote w name).files (name ++ ".pub") = some fpub ∧
      fpub.mode = 0o644) ∧
    ∀ p, p ≠ name ++ ".pub" → p ≠ name ++ ".pvt" →
      (makeGenKeyCmd box Quote w name).files p = w.files p := by
  obtain ⟨pub, pvt, hpvt, hpub, -, -, hf⟩ := genkey_ok box Quote w name h
  refine ⟨hpub, hpvt, ⟨⟨EncodeToString pvt.val, 0o600⟩, ?_, rfl, ?_⟩,
    ⟨⟨EncodeToString pub.val, 0o644⟩, ?_, rfl⟩, ?_⟩
  · rw [hf]; simp only [if_true]
  · exact (by decide : (0o600 : Nat) &&& 0o077 = 0)
  · rw [hf]; simp only [pub_ne_pvt, if_false, if_true]
  · intro p h1 h2
    rw [hf]; simp only [h1, h2, if_false]

/-- Witness of C8: `genkey alice` with the demonstration box, in a world without files. -/
theorem genkey_file_modes_witness :
    (makeGenKeyCmd demoBox demoQuote (demoWorld [] demoRand) "alice").err = none ∧
    (demoWorld [] demoRand).files ("alice" ++ ".pub") = none ∧
    (demoWorld [] demoRand).files ("alice" ++ ".pvt") = none ∧
    (∃ fpvt, (makeGenKeyCmd demoBox demoQuote (demoWorld [] demoRand) "alice").files
        ("alice" ++ ".pvt") = some fpvt ∧ fpvt.mode = 0o600 ∧ fpvt.mode &&& 0o077 = 0) ∧
    (∃ fpub, (makeGenKeyCmd demoBox demoQuote (demoWorld [] demoRand) "alice").files
        ("alice" ++ ".pub") = some fpub ∧ fpub.mode = 0o644) ∧
    ∀ p, p ≠ "alice" ++ ".pub" → p ≠ "alice" ++ ".pvt" →
      (makeGenKeyCmd demoBox demoQuote (demoWorld [] demoRand) "alice").files p =
        (demoWorld [] demoRand).files p :=
  ⟨by decide, genkey_file_modes demoBox demoQuote (demoWorld [] demoRand) "alice" (by decide)⟩

/-- C9: `encrypt` fails exactly on its listed failure modes.  It returns an error if and
only if reading the input fails, reading the public key file fails, the content of the
public key file is not valid standard base64, or the seal primitive returns an error; then
nothing is written to standard output and the process prints one error and exits with
code 1.  Otherwise the process exits with code 0 and standard output is the standard base64
encoding of the bytes returned by the seal primitive, followed by one line feed. -/
theorem encrypt_failure_modes {Rand : Type} (box : Box Rand) (w : World Rand)
    (input pubKeyFile : String) :
    ((makeEncryptCmd box w input pubKeyFile).err.isSome ↔
      ((∃ e, readInput w input = .error e) ∨
        (∃ e, ReadFile w.files pubKeyFile = .error e) ∨
        (∃ pubEnc, ReadFile w.files pubKeyFile = .ok pubEnc ∧ DecodeString pubEnc = none) ∨
        (∃ inBytes pubEnc pubBytes e, readInput w input = .ok inBytes ∧
          ReadFile w.files pubKeyFile = .ok pubEnc ∧ DecodeString pubEnc = some pubBytes ∧
          (box.SealAnonymous inBytes (copy32 pubBytes) w.rand).1 = .error e))) ∧
    ((makeEncryptCmd box w input pubKeyFile).err.isSome →
      (makeEncryptCmd box w input pubKeyFile).stdout = [] ∧
      (main (makeEncryptCmd box w input pubKeyFile)).code = 1 ∧
      (main (makeEncryptCmd box w input pubKeyFile)).stderr.length = 1) ∧
    ((makeEncryptCmd box w input pubKeyFile).err = none →
      main (makeEncryptCmd box w input pubKeyFile) = ⟨0, []⟩ ∧
      ∃ inBytes pubEnc pubBytes value, readInput w input = .ok inBytes ∧
        ReadFile w.files pubKeyFile = .ok pubEnc ∧ DecodeString pubEnc = some pubBytes ∧
        (box.SealAnonymous inBytes (copy32 pubBytes) w.rand).1 = .ok value ∧
        (makeEncryptCmd box w input pubKeyFile).stdout = EncodeToString value ++ [10]) := by
  refine ⟨?_, ?_, ?_⟩
  · unfold makeEncryptCmd
    cases hin : readInput w input with
    | error e => simp
    | ok inBytes =>
      cases hrd : ReadFile w.files pubKeyFile with
      | error e => simp
      | ok pubEnc =>
        cases hdec : DecodeString pubEnc with
        | none => simp [hdec]
        | some pubBytes =>
          rcases hseal : box.SealAnonymous inBytes (copy32 pubBytes) w.rand with ⟨res, r2⟩
          cases res with
          | error e => simp [hdec, hseal]
          | ok value => simp [hdec, hseal]
  · unfold makeEncryptCmd main
    cases hin : readInput w input with
    | error e => simp
    | ok inBytes =>
      cases hrd : ReadFile w.files pubKeyFile with
      | error e => simp
      | ok pubEnc =>
        cases hdec : DecodeString pubEnc with
        | none => simp [hdec]
        | some pubBytes =>
          rcases hseal : box.SealAnonymous inBytes (copy32 pubBytes) w.rand with ⟨res, r2⟩
          cases res with
          | error e => simp [hdec, hseal]
          | ok value => simp [hdec, hseal]
  · intro h
    obtain ⟨inBytes, pubEnc, pubBytes, value, h1, h2, h3, h4, h5⟩ :=
      encrypt_ok box w input pubKeyFile h
    refine ⟨?_, inBytes, pubEnc, pubBytes, value, h1, h2, h3, h4, h5⟩
    simp only [main, h]

/-- Witness of C9: `encrypt` in a world where nothing can be read fails without output, and
`encrypt` of `hello world` with `alice.pub` succeeds with base64 and a line feed. -/
theorem encrypt_failure_modes_witness :
    ((makeEncryptCmd demoBox demoUnreadableWorld "" "alice.pub").err.isSome ∧
      (makeEncryptCmd demoBox demoUnreadableWorld "" "alice.pub").stdout = [] ∧
      (main (makeEncryptCmd demoBox demoUnreadableWorld "" "alice.pub")).code = 1 ∧
      (main (makeEncryptCmd demoBox demoUnreadableWorld "" "alice.pub")).stderr.length = 1) ∧
    ((makeEncryptCmd demoBox demoEncryptWorld "" "alice.pub").err = none ∧
      main (makeEncryptCmd demoBox demoEncryptWorld "" "alice.pub") = ⟨0, []⟩ ∧
      ∃ inBytes pubEnc pubBytes value, readInput demoEncryptWorld "" = .ok inBytes ∧
        ReadFile demoEncryptWorld.files "alice.pub" = .ok pubEnc ∧
        DecodeString pubEnc = some pubBytes ∧
        (demoBox.SealAnonymous inBytes (copy32 pubBytes) demoEncryptWorld.rand).1 = .ok value ∧
        (makeEncryptCmd demoBox demoEncryptWorld "" "alice.pub").stdout =
          EncodeToString value ++ [10]) :=
  ⟨⟨by decide,
      (encrypt_failure_modes demoBox demoUnreadableWorld "" "alice.pub").2.1 (by decide)⟩,
    ⟨by decide,
      (encrypt_failure_modes demoBox demoEncryptWorld "" "alice.pub").2.2 (by decide)⟩⟩

/-- C10: fixed-size key copy.  For a decoded key `b` of any length `n`, the 32-byte key has
byte `i` equal to `b[i]` for `i < min(n, 32)` and equal to 0 for `n <= i < 32`: a longer key
is cut to its first 32 bytes, a shorter one is padded with zeros on the right, an empty one
becomes 32 zero bytes, one of exactly 32 bytes is unchanged.  No length raises an error:
once the input and the key files are read and decoded, `encrypt` and `decrypt` go on to the
seal and open primitives with the copied keys. -/
theorem key_copy_truncates_or_pads :
    (∀ b : List Byte,
      (copy32 b).val.length = 32 ∧
      (∀ i, i < min b.length 32 → (copy32 b).val[i]? = b[i]?) ∧
      (∀ i, b.length ≤ i → i < 32 → (copy32 b).val[i]? = some 0) ∧
      (32 ≤ b.length → (copy32 b).val = b.take 32) ∧
      (b.length ≤ 32 → (copy32 b).val = b ++ List.replicate (32 - b.length) 0) ∧
      (b = [] → (copy32 b).val = List.replicate 32 0) ∧
      (b.length = 32 → (copy32 b).val = b)) ∧
    (∀ (Rand : Type) (box : Box Rand) (w : World Rand) (input pubKeyFile : String)
      (inBytes pubEnc pubBytes : List Byte), readInput w input = .ok inBytes →
      ReadFile w.files pubKeyFile = .ok pubEnc → DecodeString pubEnc = some pubBytes →
      makeEncryptCmd box w input pubKeyFile =
        match box.SealAnonymous inBytes (copy32 pubBytes) w.rand with
        | (.error _, rand2) =>
          ⟨some (Errorf "cannot encrypt the input with provided public key" []), [], w.files,
            rand2⟩
        | (.ok value, rand2) => ⟨none, Println (EncodeToString value), w.files, rand2⟩) ∧
    (∀ (Rand : Type) (box : Box Rand) (w : World Rand) (input pvtKeyFile pubKeyFile : String)
      (inEnc inBytes pubEnc pubBytes pvtEnc pvtBytes : List Byte),
      readInput w input = .ok inEnc → DecodeString inEnc = some inBytes →
      ReadFile w.files pubKeyFile = .ok pubEnc → DecodeString pubEnc = some pubBytes →
      ReadFile w.files pvtKeyFile = .ok pvtEnc → DecodeString pvtEnc = some pvtBytes →
      makeDecryptCmd box w input pvtKeyFile pubKeyFile =
        match box.OpenAnonymous inBytes (copy32 pubBytes) (copy32 pvtBytes) with
        | none => ⟨some (Errorf "cannot decrypt the input with provided key pair" []), [],
            w.files, w.rand⟩
        | some value => ⟨none, Println value, w.files, w.rand⟩) := by
  refine ⟨fun b => ⟨(copy32 b).property, copy32_getElem?_lt b, copy32_getElem?_ge b, ?_, ?_, ?_,
    ?_⟩, ?_, ?_⟩
  · intro h
    simp only [copy32, copy, List.length_replicate, Nat.min_eq_left h, List.drop_replicate,
      Nat.sub_self, List.replicate_zero, List.append_nil]
  · intro h
    simp only [copy32, copy, List.length_replicate, Nat.min_eq_right h, List.drop_replicate,
      List.take_of_length_le (le_refl _)]
  · intro h
    subst h
    rfl
  · intro h
    exact copy_of_length_eq _ _ (by rw [h, List.length_replicate])
  · intro Rand box w input pubKeyFile inBytes pubEnc pubBytes hin hrd hdec
    simp only [makeEncryptCmd, hin, hrd, hdec]
  · intro Rand box w input pvtKeyFile pubKeyFile inEnc inBytes pubEnc pubBytes pvtEnc pvtBytes
      hin hdin hpub hdpub hpvt hdpvt
    exact decrypt_eq box w input pvtKeyFile pubKeyFile inEnc inBytes pubEnc pubBytes pvtEnc
      pvtBytes hin hdin hpub hdpub hpvt hdpvt

/-- Witness of C10: a three-byte key `7, 8, 9` keeps its bytes and is padded with zeros, and
`encrypt` with the 33-byte key of `bad.pub` goes on to the seal primitive. -/
theorem key_copy_truncates_or_pads_witness :
    (1 < min ([7, 8, 9] : List Byte).length 32 ∧ (copy32 [7, 8, 9]).val[1]? = ([7, 8, 9] : List Byte)[1]?) ∧
    (([7, 8, 9] : List Byte).length ≤ 5 ∧ 5 < 32 ∧ (copy32 [7, 8, 9]).val[5]? = some 0) ∧
    (([7, 8, 9] : List Byte).length ≤ 32 ∧
      (copy32 [7, 8, 9]).val = [7, 8, 9] ++ List.replicate (32 - [7, 8, 9].length) 0) ∧
    (readInput demoBadKeyWorld "" = .ok helloWorld ∧
      ReadFile demoBadKeyWorld.files "bad.pub" =
        .ok (ascii "AQEBAQEBAQEBAQEBAQEBAQEBAQEBAQEBAQEBAQEBAQEB") ∧
      DecodeString (ascii "AQEBAQEBAQEBAQEBAQEBAQEBAQEBAQEBAQEBAQEBAQEB") =
        some (List.replicate 33 1) ∧
      makeEncryptCmd demoBox demoBadKeyWorld "" "bad.pub" =
        match demoBox.SealAnonymous helloWorld (copy32 (List.replicate 33 1))
          demoBadKeyWorld.rand with
        | (.error _, rand2) =>
          ⟨some (Errorf "cannot encrypt the input with provided public key" []), [],
            demoBadKeyWorld.files, rand2⟩
        | (.ok value, rand2) =>
          ⟨none, Println (EncodeToString value), demoBadKeyWorld.files, rand2⟩) :=
  ⟨⟨by decide, (key_copy_truncates_or_pads.1 [7, 8, 9]).2.1 1 (by decide)⟩,
    ⟨by decide, by decide, (key_copy_truncates_or_pads.1 [7, 8, 9]).2.2.1 5 (by decide)
      (by decide)⟩,
    ⟨by decide, (key_copy_truncates_or_pads.1 [7, 8, 9]).2.2.2.2.1 (by decide)⟩,
    ⟨rfl, rfl, by decide,
      key_copy_truncates_or_pads.2.1 (List Byte) demoBox demoBadKeyWorld "" "bad.pub" helloWorld
        (ascii "AQEBAQEBAQEBAQEBAQEBAQEBAQEBAQEBAQEBAQEBAQEB") (List.replicate 33 1) rfl rfl
        (by decide)⟩⟩

end Crypta2
